import Mathlib

/-!
Verification development for the gtfspb_2_mfjson repository.

The definitions below are shallow embeddings of the Python sources:
* `code/helpers/Entity.py`            — `Carriage`, `Entity`
* `src/helpers/VehiclePositionFeed.py` — `VehiclePositionFeed.consume_pb`
* `src/helpers/GTFSStaticManager.py`   — `find_segment`
* `src/helpers/SegmentMatcher.py`      — `match_trajectory`, occupancy statistics
* `code/helpers/TrajectoryAggregator.py` — `aggregate_day`, `save_aggregated`,
  `save_segment_stats`, and the per-route/day body of `aggregate_all`.

Python floats are modelled as rationals, Unix timestamps as naturals, and the
filesystem / S3 side effects of the aggregator as a record of success booleans.
-/

namespace GtfsMf

/-- One element of `entity.vehicle.multi_carriage_details` in a feed snapshot. -/
structure CarriageDetails where
  label : String
  carriage_sequence : Nat
  occupancy_status : Nat
deriving DecidableEq, Repr

/-- The fields of a protobuf vehicle-position record that `Entity.__init__`,
`Entity.update` and `consume_pb` read. -/
structure FeedRecord where
  id : String
  direction_id : Nat
  route_id : String
  trip_id : String
  schedule_relationship : Nat
  start_date : String
  start_time : String
  vehicle_id : String
  vehicle_label : String
  license_plate : String
  bearing : ℚ
  current_status : Nat
  odometer : ℚ
  speed : ℚ
  stop_id : String
  timestamp : Nat
  current_stop_sequence : Nat
  longitude : ℚ
  latitude : ℚ
  occupancy_status : Nat
  occupancy_percentage : Int
  congestion_level : Nat
  multi_carriage_details : List CarriageDetails
deriving DecidableEq, Repr

/-- Stands for `datetime.datetime.fromtimestamp(ts).isoformat()`
(`Entity._timestamp_to_iso`): a rendering of the epoch second as a string. -/
def timestampToIso (t : Nat) : String := toString t

/-- `Carriage` from `code/helpers/Entity.py`. -/
structure Carriage where
  label : String
  carriage_sequence : Nat
  occupancy_status : List Nat
deriving DecidableEq, Repr

/-- `Carriage.__init__`. -/
def Carriage.init (cd : CarriageDetails) : Carriage :=
  { label := cd.label
    carriage_sequence := cd.carriage_sequence
    occupancy_status := [cd.occupancy_status] }

/-- `Carriage.update`. -/
def Carriage.update (c : Carriage) (cd : CarriageDetails) : Carriage :=
  { c with occupancy_status := c.occupancy_status ++ [cd.occupancy_status] }

/-- `Entity` from `code/helpers/Entity.py`: static identity fields plus the
eleven top-level temporal sequences and the carriage sub-state.
`created` models `datetime.datetime.now()` as a monotone tick. -/
structure Entity where
  entity_id : String
  direction_id : Nat
  label : String
  created : Nat
  route_id : String
  trip_id : String
  schedule_relationship : Nat
  start_date : String
  start_time : String
  vehicle_id : String
  vehicle_label : String
  license_plate : String
  bearing : List ℚ
  current_status : List Nat
  odometer : List ℚ
  speed : List ℚ
  stop_id : List String
  updated_at : List String
  current_stop_sequence : List Nat
  coordinates : List (ℚ × ℚ)
  occupancy_status : List Nat
  occupancy_percentage : List Int
  congestion_level : List Nat
  carriages : List Carriage
deriving DecidableEq, Repr

/-- `Entity.__init__`: populates the identity fields and seeds every temporal
sequence with a single observation. -/
def Entity.init (now : Nat) (e : FeedRecord) : Entity :=
  { entity_id := e.id
    direction_id := e.direction_id
    label := e.vehicle_label
    created := now
    route_id := e.route_id
    trip_id := e.trip_id
    schedule_relationship := e.schedule_relationship
    start_date := e.start_date
    start_time := e.start_time
    vehicle_id := e.vehicle_id
    vehicle_label := e.vehicle_label
    license_plate := e.license_plate
    bearing := [e.bearing]
    current_status := [e.current_status]
    odometer := [e.odometer]
    speed := [e.speed]
    stop_id := [e.stop_id]
    updated_at := [timestampToIso e.timestamp]
    current_stop_sequence := [e.current_stop_sequence]
    coordinates := [(e.longitude, e.latitude)]
    occupancy_status := [e.occupancy_status]
    occupancy_percentage := [e.occupancy_percentage]
    congestion_level := [e.congestion_level]
    carriages := e.multi_carriage_details.map Carriage.init }

/-- The loop body of the carriage pass of `Entity.update`: the first tracked
carriage whose label matches the reported one gets the new occupancy value;
an unmatched report is ignored (there is no else-branch in the source). -/
def updateFirstCarriage : List Carriage → CarriageDetails → List Carriage
  | [], _ => []
  | c :: cs, cd =>
    if c.label = cd.label then c.update cd :: cs
    else c :: updateFirstCarriage cs cd

/-- `Entity.update`: appends one value to every top-level temporal sequence,
then walks `entity.vehicle.multi_carriage_details` updating matching tracked
carriages. -/
def Entity.update (s : Entity) (e : FeedRecord) : Entity :=
  { s with
    bearing := s.bearing ++ [e.bearing]
    current_status := s.current_status ++ [e.current_status]
    current_stop_sequence := s.current_stop_sequence ++ [e.current_stop_sequence]
    coordinates := s.coordinates ++ [(e.longitude, e.latitude)]
    occupancy_status := s.occupancy_status ++ [e.occupancy_status]
    occupancy_percentage := s.occupancy_percentage ++ [e.occupancy_percentage]
    speed := s.speed ++ [e.speed]
    odometer := s.odometer ++ [e.odometer]
    updated_at := s.updated_at ++ [timestampToIso e.timestamp]
    stop_id := s.stop_id ++ [e.stop_id]
    congestion_level := s.congestion_level ++ [e.congestion_level]
    carriages := e.multi_carriage_details.foldl updateFirstCarriage s.carriages }

/-- All eleven top-level temporal sequences of the entity have length `n`. -/
def Entity.temporalLen (s : Entity) (n : Nat) : Prop :=
  s.bearing.length = n ∧ s.current_status.length = n ∧ s.odometer.length = n ∧
  s.speed.length = n ∧ s.stop_id.length = n ∧ s.updated_at.length = n ∧
  s.current_stop_sequence.length = n ∧ s.coordinates.length = n ∧
  s.occupancy_status.length = n ∧ s.occupancy_percentage.length = n ∧
  s.congestion_level.length = n

instance (s : Entity) (n : Nat) : Decidable (s.temporalLen n) := by
  unfold Entity.temporalLen; infer_instance

/-- CLAIM C1. For every PositionEntity, immediately after `create` and after
every `append`, all eleven top-level temporal sequences have the same length,
equal to the number of accepted observations: creation yields length 1 in all
sequences, and each accepted append takes all sequences from length `n` to
length `n + 1`. -/
theorem entity_temporal_lockstep :
    (∀ now r, (Entity.init now r).temporalLen 1) ∧
    (∀ (s : Entity) (r : FeedRecord) (n : Nat),
      s.temporalLen n → (s.update r).temporalLen (n + 1)) := by
  constructor
  · intro now r
    simp [Entity.init, Entity.temporalLen]
  · intro s r n h
    obtain ⟨h1, h2, h3, h4, h5, h6, h7, h8, h9, h10, h11⟩ := h
    simp [Entity.update, Entity.temporalLen, h1, h2, h3, h4, h5, h6, h7, h8, h9, h10, h11]

/-- Concrete feed record used for witnesses and counterexamples. -/
def baseRec : FeedRecord :=
  { id := "v1", direction_id := 0, route_id := "r", trip_id := "t", schedule_relationship := 0
    start_date := "20250101", start_time := "08:00:00", vehicle_id := "veh", vehicle_label := "V"
    license_plate := "", bearing := 90, current_status := 2, odometer := 0, speed := 5
    stop_id := "s7", timestamp := 100, current_stop_sequence := 3, longitude := -71
    latitude := 42, occupancy_status := 1, occupancy_percentage := 40, congestion_level := 0
    multi_carriage_details := [] }

/-- Witness for C1 at a concrete entity: one creation and one append give
lock-stepped lengths 1 and then 2. -/
theorem entity_temporal_lockstep_witness :
    (Entity.init 0 baseRec).temporalLen 1 ∧
    ((Entity.init 0 baseRec).update { baseRec with timestamp := 200 }).temporalLen 2 :=
  ⟨entity_temporal_lockstep.1 0 baseRec,
   entity_temporal_lockstep.2 (Entity.init 0 baseRec) { baseRec with timestamp := 200 } 1
     (entity_temporal_lockstep.1 0 baseRec)⟩

/-- Labels of the tracked carriages of an entity. -/
def carriageLabels (cs : List Carriage) : List String := cs.map Carriage.label

theorem updateFirstCarriage_labels (cs : List Carriage) (cd : CarriageDetails) :
    carriageLabels (updateFirstCarriage cs cd) = carriageLabels cs := by
  induction cs with
  | nil => rfl
  | cons c cs ih =>
    by_cases h : c.label = cd.label
    · simp [updateFirstCarriage, h, carriageLabels, Carriage.update]
    · simpa [updateFirstCarriage, h, carriageLabels] using ih

theorem updateFirstCarriage_eq_map (cs : List Carriage) (cd : CarriageDetails)
    (h : (carriageLabels cs).Nodup) :
    updateFirstCarriage cs cd =
      cs.map (fun c => if c.label = cd.label then c.update cd else c) := by
  induction cs with
  | nil => rfl
  | cons c cs ih =>
    simp [carriageLabels] at h
    by_cases hc : c.label = cd.label
    · have hmap : cs.map (fun x => if x.label = cd.label then x.update cd else x) = cs := by
        have : ∀ x ∈ cs, (if x.label = cd.label then x.update cd else x) = x := by
          intro x hx
          have hne : x.label ≠ cd.label := by
            intro hEq
            exact h.1 x hx (hEq.trans hc.symm)
          simp [hne]
        calc cs.map (fun x => if x.label = cd.label then x.update cd else x)
            = cs.map id := List.map_congr_left this
          _ = cs := List.map_id cs
      simp [updateFirstCarriage, hc, hmap]
    · simp [updateFirstCarriage, hc, ih h.2]

/-- The per-carriage effect of one `append`, as the specification describes it:
the first reported carriage detail with a matching label (if any) contributes
one occupancy value; otherwise the tracked carriage is unchanged. -/
def carriageSpecUpdate (rcs : List CarriageDetails) (c : Carriage) : Carriage :=
  match rcs.find? (fun cd => cd.label == c.label) with
  | some cd => c.update cd
  | none => c

theorem carriageLabels_map_step (cs : List Carriage) (cd : CarriageDetails) :
    carriageLabels (cs.map (fun c => if c.label = cd.label then c.update cd else c)) =
      carriageLabels cs := by
  induction cs with
  | nil => rfl
  | cons c cs ih =>
    by_cases h : c.label = cd.label <;>
      simpa [carriageLabels, h, Carriage.update] using ih

theorem foldl_updateFirstCarriage_eq_map (rcs : List CarriageDetails) (cs : List Carriage)
    (hcs : (carriageLabels cs).Nodup)
    (hrcs : (rcs.map CarriageDetails.label).Nodup) :
    rcs.foldl updateFirstCarriage cs = cs.map (carriageSpecUpdate rcs) := by
  induction rcs generalizing cs with
  | nil =>
    simp only [List.foldl_nil]
    have : ∀ c ∈ cs, carriageSpecUpdate [] c = c := by
      intro c _; rfl
    calc cs = cs.map id := (List.map_id cs).symm
      _ = cs.map (carriageSpecUpdate []) := List.map_congr_left (by intro c _; rfl)
  | cons cd rcs ih =>
    rw [List.map_cons, List.nodup_cons] at hrcs
    have hcs2 : (carriageLabels (updateFirstCarriage cs cd)).Nodup := by
      rw [updateFirstCarriage_labels]; exact hcs
    rw [List.foldl_cons, ih (updateFirstCarriage cs cd) hcs2 hrcs.2,
      updateFirstCarriage_eq_map cs cd hcs, List.map_map]
    apply List.map_congr_left
    intro c _
    by_cases hc : c.label = cd.label
    · have hfind : rcs.find? (fun x => x.label == cd.label) = none := by
        apply List.find?_eq_none.mpr
        intro x hx
        simp only [beq_iff_eq]
        intro hEq
        exact hrcs.1 (hEq ▸ List.mem_map_of_mem CarriageDetails.label hx)
      have hfind2 : (cd :: rcs).find? (fun x => x.label == c.label) = some cd := by
        apply List.find?_cons_of_pos
        simp [hc]
      simp [Function.comp, carriageSpecUpdate, hc, hfind, hfind2, Carriage.update]
    · have hne : ¬(cd.label == c.label) = true := by
        simp only [beq_iff_eq]
        exact fun hEq => hc hEq.symm
      simp only [Function.comp, carriageSpecUpdate, if_neg hc]
      rw [List.find?_cons_of_neg rcs hne]

/-- A record reporting one carriage with the label "A", not tracked by the
entity built from `baseRec` (which reports no carriages). -/
def carRec : FeedRecord :=
  { baseRec with
    timestamp := 200
    multi_carriage_details := [{ label := "A", carriage_sequence := 1, occupancy_status := 3 }] }

/-- CLAIM C4, counterexample. The claim says `append` creates a new carriage
sub-state when the reported label is not yet tracked; in the code the carriage
loop of `Entity.update` has no else-branch, so a record carriage whose label is
untracked is dropped: after appending a record that reports carriage "A" to an
entity tracking no carriages, the carriage sub-state is still empty. -/
theorem entity_append_carriage_cex :
    ((Entity.init 0 baseRec).update carRec).carriages = [] ∧
    carRec.multi_carriage_details ≠ [] :=
  ⟨rfl, by decide⟩

/-- CLAIM C4, amended. For every accepted record, `append` maps each tracked
carriage as follows: if the record reports a carriage with the same label (first
match), one occupancy value is appended to that carriage's own sequence;
otherwise the carriage is unchanged. Reported carriages whose label is not yet
tracked are ignored — no new sub-state is created — and the set of tracked
carriages never changes across an append. (Stated for records and entities
whose carriage labels are duplicate-free.) -/
theorem entity_append_carriages_amended (s : Entity) (r : FeedRecord)
    (hs : (carriageLabels s.carriages).Nodup)
    (hr : (r.multi_carriage_details.map CarriageDetails.label).Nodup) :
    (s.update r).carriages = s.carriages.map (carriageSpecUpdate r.multi_carriage_details) :=
  foldl_updateFirstCarriage_eq_map r.multi_carriage_details s.carriages hs hr

/-- Witness for the amended C4: an entity tracking carriage "A" receives a
record reporting carriages "A" and "B"; "A" gets one appended occupancy value
while "B" is ignored. -/
theorem entity_append_carriages_amended_witness :
    ((Entity.init 0 carRec).update
        { baseRec with
          timestamp := 300
          multi_carriage_details :=
            [{ label := "A", carriage_sequence := 1, occupancy_status := 5 },
             { label := "B", carriage_sequence := 2, occupancy_status := 4 }] }).carriages =
      (Entity.init 0 carRec).carriages.map
        (carriageSpecUpdate
          [{ label := "A", carriage_sequence := 1, occupancy_status := 5 },
           { label := "B", carriage_sequence := 2, occupancy_status := 4 }]) ∧
    ((Entity.init 0 carRec).update
        { baseRec with
          timestamp := 300
          multi_carriage_details :=
            [{ label := "A", carriage_sequence := 1, occupancy_status := 5 },
             { label := "B", carriage_sequence := 2, occupancy_status := 4 }] }).carriages =
      [{ label := "A", carriage_sequence := 1, occupancy_status := [3, 5] }] :=
  ⟨entity_append_carriages_amended _ _ (by decide) (by decide), by decide⟩

/-- `DEFAULT_TIMEOUT` from `VehiclePositionFeed.py`. -/
def DEFAULT_TIMEOUT : Nat := 30

/-- `ERROR_TIMEOUT` from `VehiclePositionFeed.py`: the long backoff interval. -/
def ERROR_TIMEOUT : Nat := 300

/-- `MAX_ENTITIES` from `VehiclePositionFeed.py`: the registry size ceiling. -/
def MAX_ENTITIES : Nat := 1000

/-- The mutable state of a `VehiclePositionFeed`: the live entity registry and
the poll interval. -/
structure Feed where
  entities : List Entity
  timeout : Nat
deriving DecidableEq, Repr

/-- A freshly constructed `VehiclePositionFeed` (empty registry, default
timeout). -/
def Feed.initial : Feed := { entities := [], timeout := DEFAULT_TIMEOUT }

/-- `min(self.entities, key=lambda e: e.created)`: the first entity with the
minimal creation instant. -/
def oldestEntity : List Entity → Option Entity
  | [] => none
  | e :: es =>
    match oldestEntity es with
    | none => some e
    | some o => some (if o.created < e.created then o else e)

/-- `find_entity`: the first registry entity with the given id. -/
def findEntity (es : List Entity) (id : String) : Option Entity :=
  es.find? (fun e => e.entity_id == id)

/-- Replace the first registry entity carrying the given id by `f` of it (the
in-place mutation `entity.update(feed_entity)` of the object returned by
`find_entity`). -/
def updateEntityAt : List Entity → String → (Entity → Entity) → List Entity
  | [], _, _ => []
  | e :: es, id, f =>
    if e.entity_id = id then f e :: es else e :: updateEntityAt es id f

/-- Remove the first registry entity carrying the given id
(`self.entities.remove(entity)` for the object returned by `find_entity`). -/
def removeFirstById : List Entity → String → List Entity
  | [], _ => []
  | e :: es, id => if e.entity_id = id then es else e :: removeFirstById es id

/-- Result of one `consume_pb` cycle: the new feed state, the entities that
were finalized (removed from the registry by ceiling eviction, direction
change, or sweep), and among those the ones handed to `Entity.save`. -/
structure CycleResult where
  feed : Feed
  finalized : List Entity
  saved : List Entity
deriving DecidableEq, Repr

/-- `_check_memory_limit`: when the registry exceeds `MAX_ENTITIES`, the
oldest-created entity is evicted — persisted first iff it holds more than one
observation. -/
def checkMemoryLimit (s : Feed) : Feed × List Entity × List Entity :=
  if MAX_ENTITIES < s.entities.length then
    match oldestEntity s.entities with
    | some oldest =>
      ({ s with entities := s.entities.erase oldest }, [oldest],
        if 1 < oldest.updated_at.length then [oldest] else [])
    | none => (s, [], [])
  else (s, [], [])

/-- Intermediate state of the per-record reconcile loop of `consume_pb`. -/
structure ReconcileState where
  entities : List Entity
  currentIds : List String
  finalized : List Entity
  saved : List Entity
deriving DecidableEq, Repr

/-- The body of the per-record loop of `consume_pb` (registry non-empty): a
record whose id is unknown creates an entity; a known id with an unchanged
last timestamp is a duplicate poll (marked seen, no mutation); with a new
timestamp and unchanged direction the observation is appended; with a changed
direction the old entity is finalized (persisted iff it has more than one
observation) and a fresh entity is created under the same id. -/
def reconcileStep (now : Nat) (st : ReconcileState) (fe : FeedRecord) : ReconcileState :=
  match findEntity st.entities fe.id with
  | some entity =>
    if entity.updated_at.getLast? ≠ some (timestampToIso fe.timestamp) then
      if entity.direction_id = fe.direction_id then
        { st with
          entities := updateEntityAt st.entities fe.id (fun e => e.update fe)
          currentIds := st.currentIds ++ [fe.id] }
      else
        { entities := removeFirstById st.entities fe.id ++ [Entity.init now fe]
          currentIds := st.currentIds ++ [fe.id]
          finalized := st.finalized ++ [entity]
          saved := st.saved ++ if 1 < entity.updated_at.length then [entity] else [] }
    else
      { st with currentIds := st.currentIds ++ [fe.id] }
  | none =>
    { st with
      entities := st.entities ++ [Entity.init now fe]
      currentIds := st.currentIds ++ [fe.id] }

/-- One iteration of the sweep loop of `consume_pb`: the entity holding a
finished id is persisted iff it has more than one observation, then removed.
The triple is (registry, finalized entities, saved entities). -/
def sweepStep (t : List Entity × List Entity × List Entity) (id : String) :
    List Entity × List Entity × List Entity :=
  match findEntity t.1 id with
  | some entity =>
    (removeFirstById t.1 id, t.2.1 ++ [entity],
      t.2.2 ++ if 1 < entity.updated_at.length then [entity] else [])
  | none => t

/-- `consume_pb`, given the already-fetched vehicle records of this cycle (the
successful-fetch case of `get_entities`): runs the ceiling check, then either
skips the cycle on an empty snapshot (escalating the poll interval), bootstraps
an empty registry, or reconciles and finally sweeps the ids that disappeared. -/
def consumePb (s : Feed) (now : Nat) (feedEntities : List FeedRecord) : CycleResult :=
  let m := checkMemoryLimit s
  let s1 := m.1
  if feedEntities.length = 0 then
    { feed := { s1 with timeout := ERROR_TIMEOUT }, finalized := m.2.1, saved := m.2.2 }
  else if s1.entities.length = 0 then
    { feed := { s1 with entities := feedEntities.map (Entity.init now) }
      finalized := m.2.1
      saved := m.2.2 }
  else
    let st := feedEntities.foldl (reconcileStep now)
      { entities := s1.entities, currentIds := [], finalized := m.2.1, saved := m.2.2 }
    let removeIds := (st.entities.map Entity.entity_id).dedup.filter
      (fun id => decide (id ∉ st.currentIds))
    let r := removeIds.foldl sweepStep (st.entities, st.finalized, st.saved)
    { feed := { s1 with entities := r.1 }, finalized := r.2.1, saved := r.2.2 }

/-- A run of successive poll cycles, each given as (clock tick, fetched
records), starting from a given feed state. -/
def runCycles (s : Feed) (cycles : List (Nat × List FeedRecord)) : Feed :=
  cycles.foldl (fun acc c => (consumePb acc c.1 c.2).feed) s

theorem oldestEntity_mem : ∀ (l : List Entity) (o : Entity), oldestEntity l = some o → o ∈ l := by
  intro l
  induction l with
  | nil => intro o h; simp [oldestEntity] at h
  | cons e es ih =>
    intro o h
    rw [oldestEntity] at h
    cases hes : oldestEntity es with
    | none =>
      rw [hes] at h
      simp only [Option.some.injEq] at h
      exact h ▸ List.mem_cons_self e es
    | some old =>
      rw [hes] at h
      simp only [Option.some.injEq] at h
      by_cases hlt : old.created < e.created
      · rw [if_pos hlt] at h
        exact List.mem_cons_of_mem e (h ▸ ih old hes)
      · rw [if_neg hlt] at h
        exact h ▸ List.mem_cons_self e es

theorem oldestEntity_cons_of_lt (e : Entity) (es : List Entity)
    (h : ∀ x ∈ es, e.created < x.created) : oldestEntity (e :: es) = some e := by
  rw [oldestEntity]
  cases hes : oldestEntity es with
  | none => rfl
  | some o =>
    have ho := h o (oldestEntity_mem es o hes)
    show some (if o.created < e.created then o else e) = some e
    rw [if_neg (by omega)]

/-- A one-observation entity whose creation tick and id are `i`. -/
def staleEntity (i : Nat) : Entity := Entity.init i { baseRec with id := toString i }

/-- A registry holding 1001 live entities (one over `MAX_ENTITIES`), the
oldest being `staleEntity 0`. -/
def overfullFeed : Feed :=
  { entities := staleEntity 0 :: (List.range 1000).map (fun i => staleEntity (i + 1))
    timeout := DEFAULT_TIMEOUT }

theorem overfullFeed_entities_cons :
    overfullFeed.entities = staleEntity 0 :: (List.range 1000).map (fun i => staleEntity (i + 1)) :=
  rfl

theorem consumePb_nil_over (s : Feed) (now : Nat) (o : Entity)
    (hc : MAX_ENTITIES < s.entities.length) (ho : oldestEntity s.entities = some o) :
    consumePb s now [] =
      { feed := { s with entities := s.entities.erase o, timeout := ERROR_TIMEOUT }
        finalized := [o]
        saved := if 1 < o.updated_at.length then [o] else [] } := by
  simp only [consumePb, checkMemoryLimit, if_pos hc, ho, List.length_nil]
  simp

/-- CLAIM C2, counterexample. The ceiling check of `consume_pb` runs before the
fetch, so a cycle whose fetch succeeds with zero records does NOT always leave
the registry unchanged: on a registry of 1001 entities the oldest one is
evicted even though the snapshot is empty, and the registry shrinks to 1000. -/
theorem empty_cycle_eviction_cex :
    (consumePb overfullFeed 5000 []).feed.entities.length ≠ overfullFeed.entities.length := by
  have hmin : oldestEntity overfullFeed.entities = some (staleEntity 0) := by
    rw [overfullFeed_entities_cons]
    apply oldestEntity_cons_of_lt
    intro x hx
    simp only [List.mem_map] at hx
    obtain ⟨i, _, rfl⟩ := hx
    show (0 : Nat) < i + 1
    omega
  have herase : overfullFeed.entities.erase (staleEntity 0) =
      (List.range 1000).map (fun i => staleEntity (i + 1)) := by
    rw [overfullFeed_entities_cons, List.erase_cons_head]
  have hlen : overfullFeed.entities.length = 1001 := by
    simp [overfullFeed]
  have hcond : MAX_ENTITIES < overfullFeed.entities.length := by
    rw [hlen]; decide
  have hfe : (consumePb overfullFeed 5000 []).feed.entities.length = 1000 := by
    rw [consumePb_nil_over overfullFeed 5000 (staleEntity 0) hcond hmin]
    dsimp only
    rw [herase]
    simp
  rw [hfe, hlen]
  decide

/-- CLAIM C2, amended. For every registry state whose size does not exceed
`MAX_ENTITIES`, a poll cycle whose fetch succeeds with zero vehicle records
leaves the registry (and the whole feed state except the poll interval)
unchanged — nothing is created, mutated, finalized, or removed — and escalates
the poll interval to the long backoff value `ERROR_TIMEOUT`. (When the registry
exceeds the ceiling, the ceiling eviction of the oldest entity still happens
before the empty snapshot is noticed.) -/
theorem empty_cycle_skips (s : Feed) (now : Nat)
    (h : s.entities.length ≤ MAX_ENTITIES) :
    consumePb s now [] =
      { feed := { s with timeout := ERROR_TIMEOUT }, finalized := [], saved := [] } := by
  simp [consumePb, checkMemoryLimit, Nat.not_lt.mpr h]

/-- Witness for the amended C2 at a concrete state: a two-entity registry is
untouched by an empty cycle and the timeout escalates to 300. -/
theorem empty_cycle_skips_witness :
    consumePb { entities := [staleEntity 0, staleEntity 1], timeout := DEFAULT_TIMEOUT } 7 [] =
      { feed := { entities := [staleEntity 0, staleEntity 1], timeout := ERROR_TIMEOUT }
        finalized := []
        saved := [] } :=
  empty_cycle_skips { entities := [staleEntity 0, staleEntity 1], timeout := DEFAULT_TIMEOUT } 7
    (by simp [MAX_ENTITIES])

theorem foldl_preserve {σ α : Type _} {P : σ → Prop} {f : σ → α → σ}
    (hf : ∀ s a, P s → P (f s a)) : ∀ (l : List α) (s : σ), P s → P (l.foldl f s) := by
  intro l
  induction l with
  | nil => intro s h; exact h
  | cons a t ih => intro s h; exact ih (f s a) (hf s a h)

/-- Persistence predicate of the finalization sites: more than one observation. -/
def multiObs (e : Entity) : Bool := decide (1 < e.updated_at.length)

theorem checkMemoryLimit_saved (s : Feed) :
    (checkMemoryLimit s).2.2 = (checkMemoryLimit s).2.1.filter multiObs := by
  unfold checkMemoryLimit
  by_cases h : MAX_ENTITIES < s.entities.length
  · rw [if_pos h]
    cases ho : oldestEntity s.entities with
    | none => simp
    | some o =>
      by_cases hl : 1 < o.updated_at.length
      · simp [List.filter_cons, multiObs, hl]
      · simp [List.filter_cons, multiObs, hl]
  · rw [if_neg h]; simp

theorem reconcileStep_saved (now : Nat) (st : ReconcileState) (fe : FeedRecord)
    (h : st.saved = st.finalized.filter multiObs) :
    (reconcileStep now st fe).saved = (reconcileStep now st fe).finalized.filter multiObs := by
  unfold reconcileStep
  cases hf : findEntity st.entities fe.id with
  | none => simpa using h
  | some entity =>
    dsimp only
    by_cases ht : entity.updated_at.getLast? ≠ some (timestampToIso fe.timestamp)
    · rw [if_pos ht]
      by_cases hd : entity.direction_id = fe.direction_id
      · rw [if_pos hd]; simpa using h
      · rw [if_neg hd]
        dsimp only
        rw [h, List.filter_append]
        congr 1
        by_cases hl : 1 < entity.updated_at.length
        · simp [List.filter_cons, multiObs, hl]
        · simp [List.filter_cons, multiObs, hl]
    · rw [if_neg ht]; simpa using h

theorem sweepStep_saved (t : List Entity × List Entity × List Entity) (id : String)
    (h : t.2.2 = t.2.1.filter multiObs) :
    (sweepStep t id).2.2 = (sweepStep t id).2.1.filter multiObs := by
  unfold sweepStep
  cases hf : findEntity t.1 id with
  | none => exact h
  | some entity =>
    dsimp only
    rw [h, List.filter_append]
    congr 1
    by_cases hl : 1 < entity.updated_at.length
    · simp [List.filter_cons, multiObs, hl]
    · simp [List.filter_cons, multiObs, hl]

theorem consumePb_saved_eq_filter (s : Feed) (now : Nat) (feed : List FeedRecord) :
    (consumePb s now feed).saved = (consumePb s now feed).finalized.filter multiObs := by
  have base := checkMemoryLimit_saved s
  unfold consumePb
  by_cases h1 : feed.length = 0
  · rw [if_pos h1]; exact base
  · rw [if_neg h1]
    by_cases h2 : (checkMemoryLimit s).1.entities.length = 0
    · rw [if_pos h2]; exact base
    · rw [if_neg h2]
      dsimp only
      apply foldl_preserve
        (P := fun t : List Entity × List Entity × List Entity => t.2.2 = t.2.1.filter multiObs)
        sweepStep_saved
      exact foldl_preserve
        (P := fun st : ReconcileState => st.saved = st.finalized.filter multiObs)
        (reconcileStep_saved now) feed _ base

/-- CLAIM C3. In every poll cycle, the entities handed to the persistence sink
are exactly the finalized ones (swept, direction-changed, or ceiling-evicted)
holding more than one observation, each exactly once per finalization event: a
finalized entity with at least 2 observations contributes exactly one save, one
with a single observation contributes none, and nothing is saved without being
finalized. -/
theorem finalize_persist_policy (s : Feed) (now : Nat) (feed : List FeedRecord) :
    (consumePb s now feed).saved = (consumePb s now feed).finalized.filter multiObs ∧
    (∀ e, (consumePb s now feed).saved.count e =
      (if 1 < e.updated_at.length then (consumePb s now feed).finalized.count e else 0)) ∧
    (∀ e ∈ (consumePb s now feed).saved, 2 ≤ e.updated_at.length) := by
  have main := consumePb_saved_eq_filter s now feed
  refine ⟨main, ?_, ?_⟩
  · intro e
    rw [main]
    by_cases hl : 1 < e.updated_at.length
    · rw [if_pos hl]
      apply List.count_filter
      simp [multiObs, hl]
    · rw [if_neg hl]
      apply List.count_eq_zero.mpr
      intro hmem
      exact hl (by simpa [multiObs] using (List.of_mem_filter hmem))
  · intro e he
    rw [main] at he
    have := List.of_mem_filter he
    simp only [multiObs, decide_eq_true_eq] at this
    omega

/-- The ids of the live registry entities, in registry order. -/
def registryIds (es : List Entity) : List String := es.map Entity.entity_id

theorem findEntity_eq_none (es : List Entity) (id : String) :
    findEntity es id = none ↔ id ∉ registryIds es := by
  unfold findEntity registryIds
  rw [List.find?_eq_none]
  constructor
  · intro h hmem
    obtain ⟨e, he, hid⟩ := List.mem_map.mp hmem
    exact h e he (by simp [hid])
  · intro h e he
    simp only [beq_iff_eq]
    intro hid
    exact h (List.mem_map.mpr ⟨e, he, hid⟩)

theorem updateEntityAt_ids (es : List Entity) (id : String) (f : Entity → Entity)
    (hf : ∀ e, (f e).entity_id = e.entity_id) :
    registryIds (updateEntityAt es id f) = registryIds es := by
  induction es with
  | nil => rfl
  | cons e es ih =>
    by_cases h : e.entity_id = id
    · simp [updateEntityAt, h, registryIds, hf]
    · simpa [updateEntityAt, h, registryIds] using ih

theorem removeFirstById_ids (es : List Entity) (id : String) :
    registryIds (removeFirstById es id) = (registryIds es).erase id := by
  induction es with
  | nil => rfl
  | cons e es ih =>
    show registryIds (if e.entity_id = id then es else e :: removeFirstById es id) =
      (e.entity_id :: registryIds es).erase id
    by_cases h : e.entity_id = id
    · rw [if_pos h, h, List.erase_cons_head]
    · rw [if_neg h, List.erase_cons]
      rw [if_neg (by simpa [beq_iff_eq] using h)]
      show e.entity_id :: registryIds (removeFirstById es id) = _
      rw [ih]

theorem erase_entity_ids_nodup (es : List Entity) (e : Entity)
    (h : (registryIds es).Nodup) : (registryIds (es.erase e)).Nodup :=
  h.sublist (List.Sublist.map Entity.entity_id (List.erase_sublist e es))

theorem checkMemoryLimit_nodup (s : Feed) (h : (registryIds s.entities).Nodup) :
    (registryIds (checkMemoryLimit s).1.entities).Nodup := by
  unfold checkMemoryLimit
  by_cases hc : MAX_ENTITIES < s.entities.length
  · rw [if_pos hc]
    cases ho : oldestEntity s.entities with
    | none => exact h
    | some o => exact erase_entity_ids_nodup s.entities o h
  · rw [if_neg hc]; exact h

theorem checkMemoryLimit_ids_sublist (s : Feed) :
    (registryIds (checkMemoryLimit s).1.entities).Sublist (registryIds s.entities) := by
  unfold checkMemoryLimit
  split
  · split
    · exact List.Sublist.map Entity.entity_id (List.erase_sublist _ s.entities)
    · exact List.Sublist.refl _
  · exact List.Sublist.refl _

theorem reconcileStep_nodup (now : Nat) (st : ReconcileState) (fe : FeedRecord)
    (h : (registryIds st.entities).Nodup) :
    (registryIds (reconcileStep now st fe).entities).Nodup := by
  unfold reconcileStep
  cases hf : findEntity st.entities fe.id with
  | none =>
    dsimp only
    have hnot : fe.id ∉ registryIds st.entities := (findEntity_eq_none _ _).mp hf
    have : registryIds (st.entities ++ [Entity.init now fe]) =
        registryIds st.entities ++ [fe.id] := by
      unfold registryIds
      rw [List.map_append]
      rfl
    rw [this, List.nodup_append]
    exact ⟨h, List.nodup_singleton _, by simpa [List.disjoint_singleton] using hnot⟩
  | some entity =>
    dsimp only
    by_cases ht : entity.updated_at.getLast? ≠ some (timestampToIso fe.timestamp)
    · rw [if_pos ht]
      by_cases hd : entity.direction_id = fe.direction_id
      · rw [if_pos hd]
        dsimp only
        rw [updateEntityAt_ids st.entities fe.id (fun e => e.update fe) (fun e => rfl)]
        exact h
      · rw [if_neg hd]
        dsimp only
        have : registryIds (removeFirstById st.entities fe.id ++ [Entity.init now fe]) =
            (registryIds st.entities).erase fe.id ++ [fe.id] := by
          unfold registryIds
          rw [List.map_append]
          rw [show List.map Entity.entity_id (removeFirstById st.entities fe.id) =
              (List.map Entity.entity_id st.entities).erase fe.id from
            removeFirstById_ids st.entities fe.id]
          rfl
        rw [this, List.nodup_append]
        refine ⟨h.erase fe.id, List.nodup_singleton _, ?_⟩
        simp only [List.disjoint_singleton]
        intro hmem
        exact ((h.mem_erase_iff).mp hmem).1 rfl
    · rw [if_neg ht]; exact h

theorem appendCreate_ids (es : List Entity) (now : Nat) (fe : FeedRecord) :
    registryIds (es ++ [Entity.init now fe]) = registryIds es ++ [fe.id] := by
  unfold registryIds
  rw [List.map_append]
  rfl

theorem removeCreate_ids (es : List Entity) (now : Nat) (fe : FeedRecord) :
    registryIds (removeFirstById es fe.id ++ [Entity.init now fe]) =
      (registryIds es).erase fe.id ++ [fe.id] := by
  unfold registryIds
  rw [List.map_append]
  rw [show List.map Entity.entity_id (removeFirstById es fe.id) =
      (List.map Entity.entity_id es).erase fe.id from removeFirstById_ids es fe.id]
  rfl

theorem reconcileStep_keeps (now : Nat) (fe : FeedRecord) (x : String) (st : ReconcileState)
    (h : x ∈ registryIds st.entities ∧ x ∈ st.currentIds) :
    x ∈ registryIds (reconcileStep now st fe).entities ∧
    x ∈ (reconcileStep now st fe).currentIds := by
  obtain ⟨h1, h2⟩ := h
  unfold reconcileStep
  cases hf : findEntity st.entities fe.id with
  | none =>
    dsimp only
    rw [appendCreate_ids]
    exact ⟨List.mem_append_left _ h1, List.mem_append_left _ h2⟩
  | some entity =>
    dsimp only
    by_cases ht : entity.updated_at.getLast? ≠ some (timestampToIso fe.timestamp)
    · rw [if_pos ht]
      by_cases hd : entity.direction_id = fe.direction_id
      · rw [if_pos hd]
        dsimp only
        rw [updateEntityAt_ids st.entities fe.id (fun e => e.update fe) (fun e => rfl)]
        exact ⟨h1, List.mem_append_left _ h2⟩
      · rw [if_neg hd]
        dsimp only
        rw [removeCreate_ids]
        by_cases hx : x = fe.id
        · exact ⟨List.mem_append_right _ (by simp [hx]), List.mem_append_left _ h2⟩
        · exact ⟨List.mem_append_left _ ((List.mem_erase_of_ne hx).mpr h1),
            List.mem_append_left _ h2⟩
    · rw [if_neg ht]
      exact ⟨h1, List.mem_append_left _ h2⟩

theorem reconcileStep_drops (now : Nat) (fe : FeedRecord) (x : String) (st : ReconcileState)
    (hne : fe.id ≠ x) (h : x ∉ registryIds st.entities) :
    x ∉ registryIds (reconcileStep now st fe).entities := by
  unfold reconcileStep
  cases hf : findEntity st.entities fe.id with
  | none =>
    dsimp only
    rw [appendCreate_ids]
    intro hmem
    rcases List.mem_append.mp hmem with hm | hm
    · exact h hm
    · exact hne (List.mem_singleton.mp hm).symm
  | some entity =>
    dsimp only
    by_cases ht : entity.updated_at.getLast? ≠ some (timestampToIso fe.timestamp)
    · rw [if_pos ht]
      by_cases hd : entity.direction_id = fe.direction_id
      · rw [if_pos hd]
        dsimp only
        rw [updateEntityAt_ids st.entities fe.id (fun e => e.update fe) (fun e => rfl)]
        exact h
      · rw [if_neg hd]
        dsimp only
        rw [removeCreate_ids]
        intro hmem
        rcases List.mem_append.mp hmem with hm | hm
        · exact h (List.mem_of_mem_erase hm)
        · exact hne (List.mem_singleton.mp hm).symm
    · rw [if_neg ht]
      exact h

theorem reconcileStep_creates (now : Nat) (fe : FeedRecord) (x : String) (st : ReconcileState)
    (heq : fe.id = x) (h : x ∉ registryIds st.entities) :
    x ∈ registryIds (reconcileStep now st fe).entities ∧
    x ∈ (reconcileStep now st fe).currentIds := by
  have hfind : findEntity st.entities fe.id = none :=
    (findEntity_eq_none _ _).mpr (heq ▸ h)
  unfold reconcileStep
  rw [hfind]
  dsimp only
  rw [appendCreate_ids]
  exact ⟨List.mem_append_right _ (by simp [heq]),
    List.mem_append_right _ (by simp [heq])⟩

theorem reconcile_fold_reaches (now : Nat) (x : String) :
    ∀ (recs : List FeedRecord) (st : ReconcileState),
      x ∈ recs.map FeedRecord.id → x ∉ registryIds st.entities →
      x ∈ registryIds (recs.foldl (reconcileStep now) st).entities ∧
      x ∈ (recs.foldl (reconcileStep now) st).currentIds := by
  intro recs
  induction recs with
  | nil => intro st hx; simp at hx
  | cons r rs ih =>
    intro st hx hnot
    rw [List.foldl_cons]
    by_cases hr : r.id = x
    · exact foldl_preserve
        (P := fun st : ReconcileState =>
          x ∈ registryIds st.entities ∧ x ∈ st.currentIds)
        (fun st fe h => reconcileStep_keeps now fe x st h) rs _
        (reconcileStep_creates now r x st hr hnot)
    · have hx2 : x ∈ rs.map FeedRecord.id := by
        rw [List.map_cons] at hx
        rcases List.mem_cons.mp hx with hm | hm
        · exact absurd hm.symm hr
        · exact hm
      exact ih _ hx2 (reconcileStep_drops now r x st hr hnot)

theorem sweepStep_keeps (x : String) (t : List Entity × List Entity × List Entity)
    (id : String) (hne : id ≠ x) (h : x ∈ registryIds t.1) :
    x ∈ registryIds (sweepStep t id).1 := by
  unfold sweepStep
  cases hf : findEntity t.1 id with
  | none => exact h
  | some entity =>
    dsimp only
    rw [removeFirstById_ids]
    exact (List.mem_erase_of_ne (fun hEq => hne hEq.symm)).mpr h

theorem sweep_fold_keeps (x : String) :
    ∀ (l : List String) (t : List Entity × List Entity × List Entity),
      (∀ id ∈ l, id ≠ x) → x ∈ registryIds t.1 →
      x ∈ registryIds (l.foldl sweepStep t).1 := by
  intro l
  induction l with
  | nil => intro t _ h; exact h
  | cons id l ih =>
    intro t hall h
    rw [List.foldl_cons]
    exact ih _ (fun i hi => hall i (List.mem_cons_of_mem _ hi))
      (sweepStep_keeps x t id (hall id (List.mem_cons_self _ _)) h)

theorem sweepStep_nodup (t : List Entity × List Entity × List Entity) (id : String)
    (h : (registryIds t.1).Nodup) : (registryIds (sweepStep t id).1).Nodup := by
  unfold sweepStep
  cases hf : findEntity t.1 id with
  | none => exact h
  | some entity =>
    dsimp only
    rw [removeFirstById_ids]
    exact h.erase id

theorem bootstrap_ids (now : Nat) (feed : List FeedRecord) :
    registryIds (feed.map (Entity.init now)) = feed.map FeedRecord.id := by
  unfold registryIds
  rw [List.map_map]
  exact List.map_congr_left fun r _ => rfl

theorem consumePb_nodup (s : Feed) (now : Nat) (feed : List FeedRecord)
    (hs : (registryIds s.entities).Nodup) (hf : (feed.map FeedRecord.id).Nodup) :
    (registryIds (consumePb s now feed).feed.entities).Nodup := by
  have hs1 : (registryIds (checkMemoryLimit s).1.entities).Nodup := checkMemoryLimit_nodup s hs
  unfold consumePb
  by_cases h1 : feed.length = 0
  · rw [if_pos h1]; exact hs1
  · rw [if_neg h1]
    by_cases h2 : (checkMemoryLimit s).1.entities.length = 0
    · rw [if_pos h2]
      dsimp only
      rw [bootstrap_ids]
      exact hf
    · rw [if_neg h2]
      dsimp only
      apply foldl_preserve
        (P := fun t : List Entity × List Entity × List Entity => (registryIds t.1).Nodup)
        sweepStep_nodup
      exact foldl_preserve
        (P := fun st : ReconcileState => (registryIds st.entities).Nodup)
        (reconcileStep_nodup now) feed _ hs1

theorem consumePb_fresh_mem (s : Feed) (now : Nat) (feed : List FeedRecord) (x : String)
    (hx : x ∈ feed.map FeedRecord.id) (hnot : x ∉ registryIds s.entities) :
    x ∈ registryIds (consumePb s now feed).feed.entities := by
  have hnot1 : x ∉ registryIds (checkMemoryLimit s).1.entities :=
    fun hmem => hnot ((checkMemoryLimit_ids_sublist s).subset hmem)
  unfold consumePb
  have h1 : ¬ feed.length = 0 := by
    intro h0
    rw [List.length_eq_zero] at h0
    subst h0
    simp at hx
  rw [if_neg h1]
  by_cases h2 : (checkMemoryLimit s).1.entities.length = 0
  · rw [if_pos h2]
    dsimp only
    rw [bootstrap_ids]
    exact hx
  · rw [if_neg h2]
    dsimp only
    have hQ := reconcile_fold_reaches now x feed
      { entities := (checkMemoryLimit s).1.entities
        currentIds := []
        finalized := (checkMemoryLimit s).2.1
        saved := (checkMemoryLimit s).2.2 } hx hnot1
    apply sweep_fold_keeps
    · intro id hid hEq
      have hni := List.of_mem_filter hid
      simp only [decide_eq_true_eq] at hni
      exact hni (hEq ▸ hQ.2)
    · exact hQ.1

theorem runCycles_nodup_aux :
    ∀ (cyc : List (Nat × List FeedRecord)) (s : Feed),
      (∀ c ∈ cyc, (c.2.map FeedRecord.id).Nodup) → (registryIds s.entities).Nodup →
      (registryIds (runCycles s cyc).entities).Nodup := by
  intro cyc
  induction cyc with
  | nil => intro s _ h; exact h
  | cons c cs ih =>
    intro s hall h
    show (registryIds (runCycles (consumePb s c.1 c.2).feed cs).entities).Nodup
    exact ih _ (fun d hd => hall d (List.mem_cons_of_mem _ hd))
      (consumePb_nodup s c.1 c.2 h (hall c (List.mem_cons_self _ _)))

/-- CLAIM C5. Starting from an empty registry, as long as every poll snapshot
carries duplicate-free entity ids (the data model assumes ids unique within a
snapshot), no two live registry entities ever share an entity id; moreover a
cycle supplying a record for an id not present in the registry brings the count
of live entities with that id from 0 to exactly 1. -/
theorem registry_id_uniqueness :
    (∀ cycles : List (Nat × List FeedRecord),
      (∀ c ∈ cycles, (c.2.map FeedRecord.id).Nodup) →
      (registryIds (runCycles Feed.initial cycles).entities).Nodup) ∧
    (∀ (s : Feed) (now : Nat) (feed : List FeedRecord) (x : String),
      (registryIds s.entities).Nodup → (feed.map FeedRecord.id).Nodup →
      x ∈ feed.map FeedRecord.id → x ∉ registryIds s.entities →
      (registryIds (consumePb s now feed).feed.entities).count x = 1 ∧
      (registryIds s.entities).count x = 0) := by
  constructor
  · intro cycles hall
    exact runCycles_nodup_aux cycles Feed.initial hall (by simp [Feed.initial, registryIds])
  · intro s now feed x hs hf hx hnot
    constructor
    · exact List.count_eq_one_of_mem (consumePb_nodup s now feed hs hf)
        (consumePb_fresh_mem s now feed x hx hnot)
    · exact List.count_eq_zero_of_not_mem hnot

/-- Witness for C5: one bootstrap cycle with a single record creates exactly
one registry entity for the unseen id "v1", and the resulting registry ids are
duplicate-free. -/
theorem registry_id_uniqueness_witness :
    (registryIds (runCycles Feed.initial [(0, [baseRec])]).entities).Nodup ∧
    (registryIds (consumePb Feed.initial 0 [baseRec]).feed.entities).count "v1" = 1 ∧
    (registryIds Feed.initial.entities).count "v1" = 0 :=
  ⟨registry_id_uniqueness.1 [(0, [baseRec])] (by decide),
   (registry_id_uniqueness.2 Feed.initial 0 [baseRec] "v1" (by decide) (by decide)
      (by decide) (by decide)).1,
   (registry_id_uniqueness.2 Feed.initial 0 [baseRec] "v1" (by decide) (by decide)
      (by decide) (by decide)).2⟩

/-- A stop-to-stop segment descriptor, as built by
`GTFSStaticManager.build_segment_index`. -/
structure Segment where
  segment_id : String
  route_id : String
  direction_id : Nat
  from_stop_sequence : Int
  to_stop_sequence : Int
  from_stop_name : String
  to_stop_name : String
deriving DecidableEq, Repr

/-- The `GTFSStaticManager` segment index: route id → direction → segment
list. Directions are keyed by integers; the string-key fallback of
`get_segments_for_route` (for JSON-cached indices whose integer keys became
strings) denotes the same association here. -/
structure GTFSStaticManager where
  segment_index : List (String × List (Nat × List Segment))
deriving DecidableEq, Repr

/-- `get_segments_for_route`: empty list when the route or direction is not
indexed. -/
def GTFSStaticManager.get_segments_for_route (m : GTFSStaticManager)
    (route_id : String) (direction_id : Nat) : List Segment :=
  match m.segment_index.lookup route_id with
  | none => []
  | some ds => (ds.lookup direction_id).getD []

/-- `find_segment`: linear scan for a segment with the given (from, to)
stop-sequence pair. -/
def GTFSStaticManager.find_segment (m : GTFSStaticManager) (route_id : String)
    (direction_id : Nat) (from_seq to_seq : Int) : Option Segment :=
  (m.get_segments_for_route route_id direction_id).find?
    (fun seg => decide (seg.from_stop_sequence = from_seq ∧ seg.to_stop_sequence = to_seq))

/-- The first (and only consulted) temporalProperties block of an MFJSON
feature, restricted to the keys the matcher and the statistics read or write.
A measure value may be null (`none`); `segment_id` is `none` until the matcher
attaches that measure. -/
structure TemporalBlock where
  datetimes : List String
  current_stop_sequence : List (Option Int)
  occupancy_percentage : List (Option ℚ)
  occupancy_status : List (Option Nat)
  segment_id : Option (List (Option String))
deriving DecidableEq, Repr

/-- An MFJSON trajectory feature, restricted to the fields the matcher and the
aggregator read; optional fields model absent dictionary keys. -/
structure Feature where
  trajectory_id : Nat
  route_id : Option String
  direction_id : Option Nat
  trip_id : Option String
  temporalProperties : List TemporalBlock
deriving DecidableEq, Repr

/-- `SegmentMatcher` state: the GTFS manager and the running matched/null
coverage counters. -/
structure SegmentMatcher where
  gtfs_manager : GTFSStaticManager
  matched_count : Nat
  null_count : Nat
deriving DecidableEq, Repr

/-- The per-observation body of the segment-assignment loop of
`match_trajectory`. -/
def assignStep (route_id : String) (direction_id : Nat)
    (acc : SegmentMatcher × List (Option String)) (stop_seq : Option Int) :
    SegmentMatcher × List (Option String) :=
  match stop_seq with
  | some v =>
    if 0 < v then
      match acc.1.gtfs_manager.find_segment route_id direction_id (v - 1) v with
      | some seg =>
        ({ acc.1 with matched_count := acc.1.matched_count + 1 },
          acc.2 ++ [some seg.segment_id])
      | none =>
        ({ acc.1 with null_count := acc.1.null_count + 1 }, acc.2 ++ [none])
    else ({ acc.1 with null_count := acc.1.null_count + 1 }, acc.2 ++ [none])
  | none => ({ acc.1 with null_count := acc.1.null_count + 1 }, acc.2 ++ [none])

/-- `match_trajectory`: on the well-formed path, attaches a discrete
`segment_id` measure to the first temporalProperties block and returns `true`;
on a missing route/direction id, an empty temporalProperties list, or an empty
stop-sequence value list, returns `false` without touching anything. -/
def SegmentMatcher.match_trajectory (m : SegmentMatcher) (f : Feature) :
    SegmentMatcher × Feature × Bool :=
  match f.route_id, f.direction_id with
  | some route_id, some direction_id =>
    match f.temporalProperties with
    | [] => (m, f, false)
    | td :: rest =>
      if td.current_stop_sequence = [] then (m, f, false)
      else
        let r := td.current_stop_sequence.foldl (assignStep route_id direction_id) (m, [])
        (r.1, { f with temporalProperties := { td with segment_id := some r.2 } :: rest },
          true)
  | _, _ => (m, f, false)

/-- Specification of one observation's assignment, as the spec words it: a
stop-sequence value `s > 0` means the vehicle occupies the segment from stop
`s - 1` to stop `s`; an index hit yields that segment's id, a miss or an
absent/zero value yields null. -/
def specAssign (g : GTFSStaticManager) (route_id : String) (direction_id : Nat) :
    Option Int → Option String
  | some v =>
    if 0 < v then (g.find_segment route_id direction_id (v - 1) v).map Segment.segment_id
    else none
  | none => none

theorem assign_fold (route_id : String) (direction_id : Nat) :
    ∀ (seqs : List (Option Int)) (m : SegmentMatcher) (acc : List (Option String)),
      (seqs.foldl (assignStep route_id direction_id) (m, acc)).1.gtfs_manager =
        m.gtfs_manager ∧
      (seqs.foldl (assignStep route_id direction_id) (m, acc)).2 =
        acc ++ seqs.map (specAssign m.gtfs_manager route_id direction_id) := by
  intro seqs
  induction seqs with
  | nil => intro m acc; simp
  | cons s ss ih =>
    intro m acc
    rw [List.foldl_cons]
    cases s with
    | none =>
      rw [show assignStep route_id direction_id (m, acc) none =
          ({ m with null_count := m.null_count + 1 }, acc ++ [none]) from rfl]
      constructor
      · exact (ih { m with null_count := m.null_count + 1 } (acc ++ [none])).1
      · rw [(ih { m with null_count := m.null_count + 1 } (acc ++ [none])).2]
        simp [specAssign]
    | some v =>
      by_cases hv : 0 < v
      · cases hseg : m.gtfs_manager.find_segment route_id direction_id (v - 1) v with
        | some seg =>
          rw [show assignStep route_id direction_id (m, acc) (some v) =
              ({ m with matched_count := m.matched_count + 1 },
                acc ++ [some seg.segment_id]) from by
            simp [assignStep, hv, hseg]]
          constructor
          · exact (ih { m with matched_count := m.matched_count + 1 }
              (acc ++ [some seg.segment_id])).1
          · rw [(ih { m with matched_count := m.matched_count + 1 }
              (acc ++ [some seg.segment_id])).2]
            simp [specAssign, hv, hseg]
        | none =>
          rw [show assignStep route_id direction_id (m, acc) (some v) =
              ({ m with null_count := m.null_count + 1 }, acc ++ [none]) from by
            simp [assignStep, hv, hseg]]
          constructor
          · exact (ih { m with null_count := m.null_count + 1 } (acc ++ [none])).1
          · rw [(ih { m with null_count := m.null_count + 1 } (acc ++ [none])).2]
            simp [specAssign, hv, hseg]
      · rw [show assignStep route_id direction_id (m, acc) (some v) =
            ({ m with null_count := m.null_count + 1 }, acc ++ [none]) from by
          simp [assignStep, hv]]
        constructor
        · exact (ih { m with null_count := m.null_count + 1 } (acc ++ [none])).1
        · rw [(ih { m with null_count := m.null_count + 1 } (acc ++ [none])).2]
          simp [specAssign, hv]

/-- CLAIM C6. On the well-formed path, `match_trajectory` attaches a
`segment_id` measure parallel to the stop-sequence list, assigning at every
index the id returned by the static-index lookup `(route, direction, s-1, s)`
when the stop-sequence value `s` is present and positive and the lookup hits,
and null otherwise. -/
theorem match_trajectory_assignment (m : SegmentMatcher) (f : Feature)
    (route : String) (dir : Nat) (td : TemporalBlock) (rest : List TemporalBlock)
    (hroute : f.route_id = some route) (hdir : f.direction_id = some dir)
    (htp : f.temporalProperties = td :: rest)
    (hseq : td.current_stop_sequence ≠ []) :
    (m.match_trajectory f).2.2 = true ∧
    (m.match_trajectory f).2.1 =
      { f with temporalProperties :=
          { td with
            segment_id :=
              some (td.current_stop_sequence.map
                (specAssign m.gtfs_manager route dir)) } :: rest } := by
  unfold SegmentMatcher.match_trajectory
  rw [hroute, hdir, htp]
  dsimp only
  rw [if_neg hseq]
  have h := assign_fold route dir td.current_stop_sequence m []
  rw [List.nil_append] at h
  exact ⟨rfl, by rw [h.2]⟩

/-- Concrete one-segment index `(route "r", direction 0, stops 2 → 3)` and a
feature whose stop sequences are `[0, 3, 3]`, from the spec's example. -/
def exSeg : Segment :=
  { segment_id := "r_0_2-3", route_id := "r", direction_id := 0, from_stop_sequence := 2
    to_stop_sequence := 3, from_stop_name := "A", to_stop_name := "B" }

def exManager : GTFSStaticManager := { segment_index := [("r", [(0, [exSeg])])] }

def exMatcher : SegmentMatcher := { gtfs_manager := exManager, matched_count := 0, null_count := 0 }

def exBlock : TemporalBlock :=
  { datetimes := ["2025-01-01T08:00:00", "2025-01-01T08:00:10", "2025-01-01T08:00:20"]
    current_stop_sequence := [some 0, some 3, some 3]
    occupancy_percentage := []
    occupancy_status := []
    segment_id := none }

def exFeature : Feature :=
  { trajectory_id := 0, route_id := some "r", direction_id := some 0, trip_id := some "t"
    temporalProperties := [exBlock] }

/-- Witness for C6 at the spec's example: stop sequences `[0, 3, 3]` with the
index containing `(r, 0, 2, 3)` yield the assignment `[null, segId, segId]`. -/
theorem match_trajectory_assignment_witness :
    (exMatcher.match_trajectory exFeature).2.2 = true ∧
    (exMatcher.match_trajectory exFeature).2.1 =
      { exFeature with temporalProperties :=
          [{ exBlock with
             segment_id :=
               some [none, some "r_0_2-3", some "r_0_2-3"] }] } := by
  have h := match_trajectory_assignment exMatcher exFeature "r" 0 exBlock [] rfl rfl rfl
    (by decide)
  refine ⟨h.1, ?_⟩
  rw [h.2]
  decide

/-- CLAIM C10. `match_trajectory` fails closed: a feature lacking route or
direction id, with an empty temporalProperties list, or whose first
temporalProperties block has an empty stop-sequence value list, yields `false`
with the matcher counters and the feature completely untouched. Moreover only
the first temporalProperties block is ever consulted or modified: the returned
matcher, flag, and head block are independent of the remaining blocks, and the
remaining blocks are passed through unchanged. -/
theorem match_trajectory_failure_frame :
    (∀ (m : SegmentMatcher) (f : Feature),
      f.route_id = none ∨ f.direction_id = none ∨ f.temporalProperties = [] ∨
        (∃ td rest, f.temporalProperties = td :: rest ∧ td.current_stop_sequence = []) →
      m.match_trajectory f = (m, f, false)) ∧
    (∀ (m : SegmentMatcher) (tid : Nat) (r : String) (d : Nat) (t : Option String)
        (td : TemporalBlock) (rest rest2 : List TemporalBlock),
      (SegmentMatcher.match_trajectory m ⟨tid, some r, some d, t, td :: rest⟩).1 =
        (SegmentMatcher.match_trajectory m ⟨tid, some r, some d, t, td :: rest2⟩).1 ∧
      (SegmentMatcher.match_trajectory m ⟨tid, some r, some d, t, td :: rest⟩).2.2 =
        (SegmentMatcher.match_trajectory m ⟨tid, some r, some d, t, td :: rest2⟩).2.2 ∧
      (SegmentMatcher.match_trajectory m
          ⟨tid, some r, some d, t, td :: rest⟩).2.1.temporalProperties.head? =
        (SegmentMatcher.match_trajectory m
          ⟨tid, some r, some d, t, td :: rest2⟩).2.1.temporalProperties.head? ∧
      (SegmentMatcher.match_trajectory m
          ⟨tid, some r, some d, t, td :: rest⟩).2.1.temporalProperties.tail = rest) := by
  constructor
  · intro m f h
    obtain ⟨tid, ro, di, t, tp⟩ := f
    unfold SegmentMatcher.match_trajectory
    rcases h with h | h | h | h
    · simp only at h
      subst h
      cases di <;> rfl
    · simp only at h
      subst h
      cases ro <;> rfl
    · simp only at h
      subst h
      cases ro <;> cases di <;> rfl
    · obtain ⟨td, rest, htp, hseq⟩ := h
      simp only at htp
      subst htp
      cases ro with
      | none => rfl
      | some r =>
        cases di with
        | none => rfl
        | some d =>
          dsimp only
          rw [if_pos hseq]
  · intro m tid r d t td rest rest2
    unfold SegmentMatcher.match_trajectory
    dsimp only
    by_cases hseq : td.current_stop_sequence = []
    · simp only [if_pos hseq]
      refine ⟨?_, ?_, ?_, ?_⟩ <;> trivial
    · simp only [if_neg hseq]
      refine ⟨?_, ?_, ?_, ?_⟩ <;> trivial

/-- Witness for C10: a feature missing its route id is returned untouched with
`false`, and on a two-block feature the blocks after the first pass through
unchanged. -/
theorem match_trajectory_failure_frame_witness :
    SegmentMatcher.match_trajectory exMatcher { exFeature with route_id := none } =
      (exMatcher, { exFeature with route_id := none }, false) ∧
    (SegmentMatcher.match_trajectory exMatcher
        ⟨0, some "r", some 0, some "t", [exBlock, exBlock]⟩).2.1.temporalProperties.tail =
      [exBlock] :=
  ⟨match_trajectory_failure_frame.1 exMatcher _ (Or.inl rfl),
   (match_trajectory_failure_frame.2 exMatcher 0 "r" 0 (some "t") exBlock [exBlock]
      []).2.2.2⟩

/-- `normalized_pcts` in `compute_segment_statistics`: a percentage value
greater than 1 is scaled to the 0–1 range by dividing by 100; other values are
assumed to already be a fraction. -/
def normalizePcts (pcts : List ℚ) : List ℚ :=
  pcts.map (fun p => if 1 < p then p / 100 else p)

/-- Python `min` over a list (None on empty). -/
def listMin : List ℚ → Option ℚ
  | [] => none
  | x :: xs =>
    match listMin xs with
    | none => some x
    | some m => some (min x m)

/-- Python `max` over a list (None on empty). -/
def listMax : List ℚ → Option ℚ
  | [] => none
  | x :: xs =>
    match listMax xs with
    | none => some x
    | some m => some (max x m)

/-- `Counter(values)` of `_compute_mode`, as (value, frequency) pairs. -/
def modeCounts (l : List ℚ) : List (ℚ × Nat) := l.dedup.map (fun v => (v, l.count v))

/-- `max(counts.values())` of `_compute_mode`. -/
def modeMaxCount (l : List ℚ) : Nat := ((modeCounts l).map Prod.snd).foldl max 0

/-- The list of values attaining the maximal frequency in `_compute_mode`. -/
def modeList (l : List ℚ) : List ℚ :=
  ((modeCounts l).filter (fun p => p.2 = modeMaxCount l)).map Prod.fst

/-- `_compute_mode`: the most frequent value, the smallest one on a tie;
0 for an empty list. -/
def computeMode (values : List ℚ) : ℚ :=
  match values with
  | [] => 0
  | _ :: _ => (listMin (modeList values)).getD 0

/-- The occupancy-percentage distribution entry of one segment's statistics. -/
structure OccupancyStats where
  mode : ℚ
  median : ℚ
  min : ℚ
  max : ℚ
  p95 : ℚ
deriving DecidableEq, Repr

/-- Python `sorted` on rationals. -/
def sortedList (l : List ℚ) : List ℚ := l.mergeSort

/-- The occupancy statistics block of `compute_segment_statistics` (the
`if occupancy_pcts:` body): `none` when no percentage value is present.
`int(len * 0.95)` is `⌊0.95·n⌋`, rendered here as `n * 95 / 100`; the float
product cannot cross an integer boundary for any list length, so the two
agree. -/
def computeOccupancyStats (pcts : List ℚ) : Option OccupancyStats :=
  match pcts with
  | [] => none
  | _ :: _ =>
    let normalized := normalizePcts pcts
    let sorted := sortedList normalized
    let n := normalized.length
    some
      { mode := computeMode normalized
        median := sorted.getD (n / 2) 0
        min := (listMin normalized).getD 0
        max := (listMax normalized).getD 0
        p95 := if 20 < n then sorted.getD (n * 95 / 100) 0 else (listMax normalized).getD 0 }

/-- Per segment group: the non-null occupancy-percentage values of the group's
observations are extracted and the statistics computed over them. -/
def segmentOccupancyStats (obs : List (Option ℚ)) : Option OccupancyStats :=
  computeOccupancyStats (obs.filterMap id)

theorem listMin_eq_none (l : List ℚ) : listMin l = none ↔ l = [] := by
  cases l with
  | nil => simp [listMin]
  | cons x xs =>
    rw [listMin]
    cases listMin xs <;> simp

theorem listMin_spec (l : List ℚ) (m : ℚ) (h : listMin l = some m) :
    m ∈ l ∧ ∀ x ∈ l, m ≤ x := by
  induction l generalizing m with
  | nil => simp [listMin] at h
  | cons x xs ih =>
    rw [listMin] at h
    cases hxs : listMin xs with
    | none =>
      rw [hxs] at h
      have hx : xs = [] := (listMin_eq_none xs).mp hxs
      subst hx
      rw [Option.some.injEq] at h
      subst h
      exact ⟨by simp, by simp⟩
    | some m0 =>
      rw [hxs] at h
      rw [Option.some.injEq] at h
      obtain ⟨hmem, hle⟩ := ih m0 hxs
      subst h
      constructor
      · rcases le_total x m0 with hc | hc
        · rw [min_eq_left hc]; exact List.mem_cons_self x xs
        · rw [min_eq_right hc]; exact List.mem_cons_of_mem x hmem
      · intro y hy
        rcases List.mem_cons.mp hy with hy | hy
        · exact hy ▸ min_le_left x m0
        · exact le_trans (min_le_right x m0) (hle y hy)

theorem listMax_eq_none (l : List ℚ) : listMax l = none ↔ l = [] := by
  cases l with
  | nil => simp [listMax]
  | cons x xs =>
    rw [listMax]
    cases listMax xs <;> simp

theorem listMax_spec (l : List ℚ) (m : ℚ) (h : listMax l = some m) :
    m ∈ l ∧ ∀ x ∈ l, x ≤ m := by
  induction l generalizing m with
  | nil => simp [listMax] at h
  | cons x xs ih =>
    rw [listMax] at h
    cases hxs : listMax xs with
    | none =>
      rw [hxs] at h
      have hx : xs = [] := (listMax_eq_none xs).mp hxs
      subst hx
      rw [Option.some.injEq] at h
      subst h
      exact ⟨by simp, by simp⟩
    | some m0 =>
      rw [hxs] at h
      rw [Option.some.injEq] at h
      obtain ⟨hmem, hle⟩ := ih m0 hxs
      subst h
      constructor
      · rcases le_total x m0 with hc | hc
        · rw [max_eq_right hc]; exact List.mem_cons_of_mem x hmem
        · rw [max_eq_left hc]; exact List.mem_cons_self x xs
      · intro y hy
        rcases List.mem_cons.mp hy with hy | hy
        · exact hy ▸ le_max_left x m0
        · exact le_trans (hle y hy) (le_max_right x m0)

theorem le_foldl_max (l : List Nat) :
    ∀ init : Nat, init ≤ l.foldl max init ∧ ∀ a ∈ l, a ≤ l.foldl max init := by
  induction l with
  | nil => intro init; exact ⟨Nat.le_refl _, by simp⟩
  | cons b t ih =>
    intro init
    rw [List.foldl_cons]
    refine ⟨le_trans (Nat.le_max_left init b) (ih (max init b)).1, ?_⟩
    intro a ha
    rcases List.mem_cons.mp ha with ha | ha
    · rw [ha]
      exact le_trans (Nat.le_max_right init b) (ih (max init b)).1
    · exact (ih (max init b)).2 a ha

theorem foldl_max_attained (l : List Nat) :
    ∀ init : Nat, l.foldl max init = init ∨ l.foldl max init ∈ l := by
  induction l with
  | nil => intro init; exact Or.inl rfl
  | cons b t ih =>
    intro init
    rw [List.foldl_cons]
    rcases ih (max init b) with h | h
    · rcases max_choice init b with hm | hm
      · exact Or.inl (by rw [h, hm])
      · exact Or.inr (by rw [h, hm]; exact List.mem_cons_self b t)
    · exact Or.inr (List.mem_cons_of_mem b h)

theorem modeCounts_map_snd (l : List ℚ) :
    (modeCounts l).map Prod.snd = l.dedup.map (Prod.snd ∘ fun v => (v, l.count v)) := by
  rw [modeCounts, List.map_map]

theorem count_le_modeMaxCount (l : List ℚ) (v : ℚ) (hv : v ∈ l) :
    l.count v ≤ modeMaxCount l := by
  have hmem : l.count v ∈ (modeCounts l).map Prod.snd := by
    rw [modeCounts_map_snd]
    exact List.mem_map_of_mem (Prod.snd ∘ fun v => (v, l.count v)) (List.mem_dedup.mpr hv)
  exact (le_foldl_max _ 0).2 _ hmem

theorem modeList_mem_iff (l : List ℚ) (y : ℚ) :
    y ∈ modeList l ↔ y ∈ l.dedup ∧ l.count y = modeMaxCount l := by
  constructor
  · intro hy
    obtain ⟨p, hp, hfst⟩ := List.mem_map.mp hy
    obtain ⟨hpc, hcond⟩ := List.mem_filter.mp hp
    obtain ⟨w, hw, hpw⟩ := List.mem_map.mp hpc
    subst hpw
    dsimp only at hfst hcond
    simp only [decide_eq_true_eq] at hcond
    subst hfst
    exact ⟨hw, hcond⟩
  · intro ⟨hy, hcnt⟩
    exact List.mem_map.mpr ⟨(y, l.count y),
      List.mem_filter.mpr ⟨List.mem_map_of_mem _ hy, by simpa using hcnt⟩, rfl⟩

theorem computeMode_spec (l : List ℚ) (hne : l ≠ []) :
    computeMode l ∈ l ∧
    (∀ v ∈ l, l.count v ≤ l.count (computeMode l)) ∧
    (∀ v ∈ l, l.count v = l.count (computeMode l) → computeMode l ≤ v) := by
  have hattain : ∃ w ∈ l.dedup, l.count w = modeMaxCount l := by
    rcases foldl_max_attained ((modeCounts l).map Prod.snd) 0 with h0 | hmem
    · exfalso
      obtain ⟨a, tl, rfl⟩ := List.exists_cons_of_ne_nil hne
      have h1 : 0 < (a :: tl).count a := List.count_pos_iff.mpr (List.mem_cons_self a tl)
      have h2 := count_le_modeMaxCount (a :: tl) a (List.mem_cons_self a tl)
      unfold modeMaxCount at h2
      omega
    · rw [modeCounts_map_snd] at hmem
      obtain ⟨w, hw, hww⟩ := List.mem_map.mp hmem
      refine ⟨w, hw, ?_⟩
      have hM : modeMaxCount l =
          List.foldl max 0 (l.dedup.map (Prod.snd ∘ fun v => (v, l.count v))) := by
        rw [modeMaxCount, modeCounts_map_snd]
      rw [hM]
      exact hww
  obtain ⟨w, hw, hwc⟩ := hattain
  have hwmodes : w ∈ modeList l := (modeList_mem_iff l w).mpr ⟨hw, hwc⟩
  have hmodes_ne : modeList l ≠ [] := fun h => by simp [h] at hwmodes
  obtain ⟨mo, hmo⟩ : ∃ mo, listMin (modeList l) = some mo := by
    cases hml : listMin (modeList l) with
    | none => exact absurd ((listMin_eq_none _).mp hml) hmodes_ne
    | some mo => exact ⟨mo, rfl⟩
  obtain ⟨hmo_mem, hmo_min⟩ := listMin_spec _ _ hmo
  obtain ⟨hmo_dedup, hmo_cnt⟩ := (modeList_mem_iff l mo).mp hmo_mem
  have hCM : computeMode l = mo := by
    obtain ⟨a, tl, rfl⟩ := List.exists_cons_of_ne_nil hne
    show (listMin (modeList (a :: tl))).getD 0 = mo
    rw [hmo]
    rfl
  rw [hCM]
  refine ⟨List.mem_dedup.mp hmo_dedup, ?_, ?_⟩
  · intro v hv
    rw [hmo_cnt]
    exact count_le_modeMaxCount l v hv
  · intro v hv hcnt
    rw [hmo_cnt] at hcnt
    exact hmo_min v ((modeList_mem_iff l v).mpr ⟨List.mem_dedup.mpr hv, hcnt⟩)

theorem occupancy_example_norm :
    normalizePcts [1/5, 2/5, 2/5] = [1/5, 2/5, 2/5] := by
  unfold normalizePcts
  norm_num

theorem occupancy_example_sorted :
    sortedList [1/5, 2/5, 2/5] = ([1/5, 2/5, 2/5] : List ℚ) := by
  unfold sortedList
  apply List.mergeSort_eq_self
  norm_num [List.sorted_cons]

theorem occupancy_example_dedup :
    ([1/5, 2/5, 2/5] : List ℚ).dedup = [1/5, 2/5] := by
  have h1 : ([2/5, 2/5] : List ℚ).dedup = [2/5] := by
    rw [List.dedup_cons_of_mem (by norm_num [List.mem_dedup]),
      List.dedup_cons_of_not_mem (by simp), List.dedup_nil]
  rw [List.dedup_cons_of_not_mem (by norm_num [List.mem_dedup]), h1]

theorem occupancy_example_counts :
    modeCounts [1/5, 2/5, 2/5] = [(1/5, 1), (2/5, 2)] := by
  rw [modeCounts, occupancy_example_dedup]
  norm_num [List.count_cons]

theorem occupancy_example_maxc : modeMaxCount [1/5, 2/5, 2/5] = 2 := by
  rw [modeMaxCount, occupancy_example_counts]
  rfl

theorem occupancy_example_modes : modeList [1/5, 2/5, 2/5] = [2/5] := by
  simp only [modeList, occupancy_example_counts, occupancy_example_maxc]
  rfl

theorem occupancy_example_mode : computeMode [1/5, 2/5, 2/5] = 2/5 := by
  show (listMin (modeList [1/5, 2/5, 2/5])).getD 0 = 2/5
  rw [occupancy_example_modes]
  rfl

theorem occupancy_example_min : listMin [1/5, 2/5, 2/5] = some (1/5) := by
  norm_num [listMin, min_def]

theorem occupancy_example_max : listMax [1/5, 2/5, 2/5] = some (2/5) := by
  norm_num [listMax, max_def]

theorem occupancy_example_eval :
    computeOccupancyStats [1/5, 2/5, 2/5] =
      some { mode := 2/5, median := 2/5, min := 1/5, max := 2/5, p95 := 2/5 } := by
  unfold computeOccupancyStats
  dsimp only
  rw [occupancy_example_norm, occupancy_example_sorted, occupancy_example_mode,
    occupancy_example_min, occupancy_example_max]
  norm_num [List.getD_cons_succ, List.getD_cons_zero]

/-- CLAIM C7. For every segment group with at least one occupancy-percentage
value, the statistics are computed over the normalized values (each value
greater than 1 divided by 100): the mode is a most frequent normalized value
and the smallest such value on a tie; the median sits at sorted index
`⌊n/2⌋` and the p95 at sorted index `⌊0.95·n⌋` when `n > 20` (the maximum
otherwise) of any ascending arrangement; min and max bound the normalized
values and belong to them. In particular `[0.2, 0.4, 0.4]` yields mode 0.4,
median 0.4, min 0.2, max 0.4 (and p95 = max). -/
theorem occupancy_stats_spec :
    (∀ pcts : List ℚ, pcts ≠ [] → (computeOccupancyStats pcts).isSome) ∧
    (∀ (pcts : List ℚ) (st : OccupancyStats), computeOccupancyStats pcts = some st →
      (st.mode ∈ normalizePcts pcts ∧
        (∀ v ∈ normalizePcts pcts,
          (normalizePcts pcts).count v ≤ (normalizePcts pcts).count st.mode) ∧
        (∀ v ∈ normalizePcts pcts,
          (normalizePcts pcts).count v = (normalizePcts pcts).count st.mode →
            st.mode ≤ v)) ∧
      (∀ l : List ℚ, l.Perm (normalizePcts pcts) → l.Sorted (· ≤ ·) →
        st.median = l.getD ((normalizePcts pcts).length / 2) 0 ∧
        st.p95 = (if 20 < (normalizePcts pcts).length then
            l.getD ((normalizePcts pcts).length * 95 / 100) 0
          else st.max)) ∧
      (st.min ∈ normalizePcts pcts ∧ ∀ v ∈ normalizePcts pcts, st.min ≤ v) ∧
      (st.max ∈ normalizePcts pcts ∧ ∀ v ∈ normalizePcts pcts, v ≤ st.max)) ∧
    segmentOccupancyStats [some (1/5), some (2/5), some (2/5)] =
      some { mode := 2/5, median := 2/5, min := 1/5, max := 2/5, p95 := 2/5 } := by
  refine ⟨?_, ?_, ?_⟩
  · intro pcts h
    cases pcts with
    | nil => exact absurd rfl h
    | cons a tl => rfl
  · intro pcts st hst
    cases pcts with
    | nil => simp [computeOccupancyStats] at hst
    | cons a tl =>
      unfold computeOccupancyStats at hst
      dsimp only at hst
      rw [Option.some.injEq] at hst
      subst hst
      have hne : normalizePcts (a :: tl) ≠ [] := by simp [normalizePcts]
      have hms : (sortedList (normalizePcts (a :: tl))).Perm (normalizePcts (a :: tl)) := by
        unfold sortedList
        exact List.mergeSort_perm _ _
      have hsorted2 : (sortedList (normalizePcts (a :: tl))).Sorted (· ≤ ·) := by
        unfold sortedList
        exact List.sorted_mergeSort' _
      obtain ⟨mn, hmn⟩ : ∃ mn, listMin (normalizePcts (a :: tl)) = some mn := by
        cases hc : listMin (normalizePcts (a :: tl)) with
        | none => exact absurd ((listMin_eq_none _).mp hc) hne
        | some mn => exact ⟨mn, rfl⟩
      obtain ⟨mx, hmx⟩ : ∃ mx, listMax (normalizePcts (a :: tl)) = some mx := by
        cases hc : listMax (normalizePcts (a :: tl)) with
        | none => exact absurd ((listMax_eq_none _).mp hc) hne
        | some mx => exact ⟨mx, rfl⟩
      refine ⟨computeMode_spec _ hne, ?_, ?_, ?_⟩
      · intro l hperm hsorted
        have hl : l = sortedList (normalizePcts (a :: tl)) :=
          List.eq_of_perm_of_sorted (hperm.trans hms.symm) hsorted hsorted2
        rw [hl]
        exact ⟨rfl, rfl⟩
      · show (listMin (normalizePcts (a :: tl))).getD 0 ∈ _ ∧ _
        rw [hmn]
        exact (listMin_spec _ mn hmn).imp id (fun h => h)
      · show (listMax (normalizePcts (a :: tl))).getD 0 ∈ _ ∧ _
        rw [hmx]
        exact (listMax_spec _ mx hmx).imp id (fun h => h)
  · show computeOccupancyStats [1/5, 2/5, 2/5] = _
    exact occupancy_example_eval

/-- Witness for C7 at the spec's example `[0.2, 0.4, 0.4]`: the statistics
evaluate to mode 0.4, median 0.4, min 0.2, max 0.4, and the general theorem
instantiates there. -/
theorem occupancy_stats_spec_witness :
    computeOccupancyStats [1/5, 2/5, 2/5] =
      some { mode := 2/5, median := 2/5, min := 1/5, max := 2/5, p95 := 2/5 } ∧
    ((2 : ℚ)/5) ∈ normalizePcts [1/5, 2/5, 2/5] ∧
    (∀ v ∈ normalizePcts [1/5, 2/5, 2/5], ((1 : ℚ)/5) ≤ v) := by
  have h := occupancy_stats_spec.2.1 [1/5, 2/5, 2/5]
    { mode := 2/5, median := 2/5, min := 1/5, max := 2/5, p95 := 2/5 }
    occupancy_example_eval
  exact ⟨occupancy_example_eval, h.1.1, h.2.2.1.2⟩

/-- Outcome of loading and validating one raw `.mfjson` source file in
`aggregate_day`: loading may raise (caught, logged, skipped), the document may
not be a FeatureCollection (logged, skipped), or it contributes its features.
Skipped files remain in the discovered file list. -/
inductive FileData
  | unreadable
  | notCollection
  | collection (features : List Feature)
deriving DecidableEq, Repr

/-- `aggregate_trajectories`: combines features and reassigns sequential
trajectory ids `0..n-1`, overwriting any prior value. -/
def aggregate_trajectories (features : List Feature) : List Feature :=
  features.enum.map (fun p => { p.2 with trajectory_id := p.1 })

/-- The matcher pass of `aggregate_day` over one file's features (the boolean
result of `match_trajectory` is ignored, as in the source). -/
def matchAll (m : SegmentMatcher) (fs : List Feature) : SegmentMatcher × List Feature :=
  fs.foldl (fun acc f =>
    let r := acc.1.match_trajectory f
    (r.1, acc.2 ++ [r.2.1])) (m, [])

/-- One step of the per-file loop of `aggregate_day`: an unreadable or
non-collection file is skipped; a collection's features are segment-matched
when a matcher is present, then collected. -/
def aggregateFileStep (acc : Option SegmentMatcher × List Feature)
    (file : String × FileData) : Option SegmentMatcher × List Feature :=
  match file.2 with
  | .collection fs =>
    match acc.1 with
    | some m =>
      let r := matchAll m fs
      (some r.1, acc.2 ++ r.2)
    | none => (none, acc.2 ++ fs)
  | _ => acc

/-- `aggregate_day` over a route/day partition's file listing (an empty
listing models a missing directory or no `.mfjson` files). Returns the merged
collection (`none` when there are no files or no valid features), the list of
ALL discovered `.mfjson` files, and whether segment statistics were computed —
`compute_segment_statistics` returns a non-empty (truthy) dictionary whenever
a matcher is present, and only its presence matters to the properties below. -/
def aggregate_day (files : List (String × FileData))
    (gtfs : Option GTFSStaticManager) :
    Option (List Feature) × List String × Bool :=
  match files with
  | [] => (none, [], false)
  | _ :: _ =>
    let matcher0 := gtfs.map (fun g => SegmentMatcher.mk g 0 0)
    let r := files.foldl aggregateFileStep (matcher0, [])
    if r.2 = [] then (none, [], false)
    else (some (aggregate_trajectories r.2), files.map Prod.fst, matcher0.isSome)

/-- Success/failure of the filesystem and S3 side effects of one route/day of
`aggregate_all`, as an oracle of booleans. -/
structure IOEnv where
  writeAggOk : Bool
  uploadAggOk : Bool
  deleteLocalAggOk : Bool
  writeStatsOk : Bool
  uploadStatsOk : Bool
deriving DecidableEq, Repr

/-- `save_aggregated`: local persist, optional S3 upload, optional
delete-after-upload of the local artifact; `false` when any requested stage
fails. -/
def save_aggregated (env : IOEnv) (s3_bucket delete_after_upload : Bool) : Bool :=
  if ¬ env.writeAggOk then false
  else if s3_bucket then
    if env.uploadAggOk then
      if delete_after_upload ∧ ¬ env.deleteLocalAggOk then false else true
    else false
  else true

/-- `save_segment_stats`: local persist of `segment_stats.json`, optional S3
upload; `false` when either fails. -/
def save_segment_stats (env : IOEnv) (s3_bucket : Bool) : Bool :=
  if ¬ env.writeStatsOk then false
  else if s3_bucket then (if env.uploadStatsOk then true else false)
  else true

/-- Observable outcome of the per-route/day body of `aggregate_all`. -/
structure DayOutcome where
  aggregatedSaved : Bool
  localAggWritten : Bool
  statsAttempted : Bool
  statsWritten : Bool
  deletedFiles : List String
deriving DecidableEq, Repr

/-- The per-route/day body of `aggregate_all`: aggregate the day; on a
non-empty merge run `save_aggregated`; only on its success call
`save_segment_stats` (when statistics were computed) and, when requested,
delete ALL the raw files returned by `aggregate_day`. -/
def processDay (env : IOEnv) (files : List (String × FileData))
    (gtfs : Option GTFSStaticManager)
    (s3_bucket delete_after_upload delete_raw_files : Bool) : DayOutcome :=
  let r := aggregate_day files gtfs
  match r.1 with
  | none =>
    { aggregatedSaved := false, localAggWritten := false, statsAttempted := false
      statsWritten := false, deletedFiles := [] }
  | some _ =>
    if save_aggregated env s3_bucket delete_after_upload then
      { aggregatedSaved := true
        localAggWritten := env.writeAggOk
        statsAttempted := r.2.2
        statsWritten := r.2.2 && env.writeStatsOk
        deletedFiles := if delete_raw_files ∧ r.2.1 ≠ [] then r.2.1 else [] }
    else
      { aggregatedSaved := false, localAggWritten := env.writeAggOk
        statsAttempted := false, statsWritten := false, deletedFiles := [] }

theorem aggregate_day_none_stats (files : List (String × FileData))
    (gtfs : Option GTFSStaticManager) (h : (aggregate_day files gtfs).1 = none) :
    (aggregate_day files gtfs).2.2 = false := by
  cases files with
  | nil => rfl
  | cons f fs =>
    unfold aggregate_day at h ⊢
    dsimp only at h ⊢
    by_cases hr : ((f :: fs).foldl aggregateFileStep
        (gtfs.map fun g => SegmentMatcher.mk g 0 0, [])).2 = []
    · rw [if_pos hr]
    · rw [if_neg hr] at h
      exact absurd h (by simp)

theorem aggregate_day_some_files (files : List (String × FileData))
    (gtfs : Option GTFSStaticManager) (x : List Feature)
    (h : (aggregate_day files gtfs).1 = some x) :
    (aggregate_day files gtfs).2.1 = files.map Prod.fst := by
  cases files with
  | nil => simp [aggregate_day] at h
  | cons f fs =>
    unfold aggregate_day at h ⊢
    dsimp only at h ⊢
    by_cases hr : ((f :: fs).foldl aggregateFileStep
        (gtfs.map fun g => SegmentMatcher.mk g 0 0, [])).2 = []
    · rw [if_pos hr] at h
      exact absurd h (by simp)
    · rw [if_neg hr]

theorem save_aggregated_true_elim (env : IOEnv) (s3 dau : Bool)
    (h : save_aggregated env s3 dau = true) :
    env.writeAggOk = true ∧ (s3 = true → env.uploadAggOk = true) := by
  obtain ⟨wa, ua, da, ws, us⟩ := env
  revert h
  cases wa <;> cases ua <;> cases da <;> cases ws <;> cases us <;> cases s3 <;> cases dau <;> decide

theorem save_aggregated_false_of_upload (env : IOEnv) (dau : Bool)
    (h : env.uploadAggOk = false) : save_aggregated env true dau = false := by
  obtain ⟨wa, ua, da, ws, us⟩ := env
  revert h
  cases wa <;> cases ua <;> cases da <;> cases ws <;> cases us <;> cases dau <;> decide

/-- Environment where the local write succeeds but the S3 upload of the
trajectory artifact fails. -/
def c8Env : IOEnv :=
  { writeAggOk := true, uploadAggOk := false, deleteLocalAggOk := true
    writeStatsOk := true, uploadStatsOk := true }

/-- A partition with one valid source file. -/
def c8Files : List (String × FileData) := [("a.mfjson", .collection [exFeature])]

/-- CLAIM C8, counterexample. With an S3 bucket configured, when the merged
collection is persisted locally but its upload fails, `save_aggregated`
returns failure and `aggregate_all` never reaches `save_segment_stats`: the
statistics artifact is NOT written even though they were computed and the
merged collection was persisted locally — persistence of the statistics is
not independent of the trajectory upload. -/
theorem stats_upload_dependence_cex :
    (processDay c8Env c8Files (some exManager) true false false).localAggWritten = true ∧
    (aggregate_day c8Files (some exManager)).2.2 = true ∧
    (processDay c8Env c8Files (some exManager) true false false).statsAttempted = false ∧
    (processDay c8Env c8Files (some exManager) true false false).statsWritten = false := by
  decide

/-- CLAIM C8, amended. The segment-statistics artifact is written iff the
statistics were computed AND `save_aggregated` succeeded as a whole — which,
when an object-storage bucket is given, requires the trajectory upload (and
any requested delete-after-upload) to succeed; in particular an upload failure
suppresses the statistics write. -/
theorem stats_write_requires_save_success (env : IOEnv)
    (files : List (String × FileData)) (gtfs : Option GTFSStaticManager)
    (s3 dau drf : Bool) :
    ((processDay env files gtfs s3 dau drf).statsAttempted = true ↔
      ((aggregate_day files gtfs).2.2 = true ∧ save_aggregated env s3 dau = true)) ∧
    (s3 = true → env.uploadAggOk = false →
      (processDay env files gtfs s3 dau drf).statsAttempted = false) := by
  constructor
  · unfold processDay
    dsimp only
    cases hagg : (aggregate_day files gtfs).1 with
    | none =>
      dsimp only
      simp [aggregate_day_none_stats files gtfs hagg]
    | some x =>
      dsimp only
      by_cases hsa : save_aggregated env s3 dau = true
      · simp [hsa]
      · simp [hsa]
  · intro hs3 hup
    subst hs3
    have hsa : save_aggregated env true dau = false :=
      save_aggregated_false_of_upload env dau hup
    unfold processDay
    dsimp only
    cases hagg : (aggregate_day files gtfs).1 with
    | none => rfl
    | some x =>
      dsimp only
      simp [hsa]

/-- Witness for the amended C8 at the concrete failing-upload environment. -/
theorem stats_write_requires_save_success_witness :
    ((processDay c8Env c8Files (some exManager) true false false).statsAttempted = true ↔
      ((aggregate_day c8Files (some exManager)).2.2 = true ∧
        save_aggregated c8Env true false = true)) ∧
    (processDay c8Env c8Files (some exManager) true false false).statsAttempted = false :=
  ⟨(stats_write_requires_save_success c8Env c8Files (some exManager) true false false).1,
   (stats_write_requires_save_success c8Env c8Files (some exManager) true false false).2
      rfl rfl⟩

/-- Environment where every side effect succeeds. -/
def envAllOk : IOEnv :=
  { writeAggOk := true, uploadAggOk := true, deleteLocalAggOk := true
    writeStatsOk := true, uploadStatsOk := true }

/-- A partition holding one valid file and one unreadable file. -/
def c9Files : List (String × FileData) :=
  [("good.mfjson", .collection [exFeature]), ("bad.mfjson", .unreadable)]

/-- CLAIM C9, counterexample. `aggregate_day` returns ALL discovered `.mfjson`
files as the deletion candidates, including files it skipped as unreadable or
invalid, and `aggregate_all` deletes them all after a successful merge: the
skipped file `bad.mfjson`, whose content was never folded into the merged
collection, is deleted too. -/
theorem skipped_file_deletion_cex :
    "bad.mfjson" ∈ (processDay envAllOk c9Files none false false true).deletedFiles ∧
    ("bad.mfjson", FileData.unreadable) ∈ c9Files := by
  decide

/-- CLAIM C9, amended. When source-file deletion is requested, the deletion is
correctly gated on overall success — files are deleted only when the merge
produced a collection and `save_aggregated` succeeded (hence the local persist
and, when a bucket is given, the upload succeeded) — but then ALL `.mfjson`
files discovered in the partition are deleted, including files skipped as
invalid or unreadable whose content was not folded into the merged
collection. -/
theorem raw_deletion_policy (env : IOEnv) (files : List (String × FileData))
    (gtfs : Option GTFSStaticManager) (s3 dau drf : Bool) :
    ((processDay env files gtfs s3 dau drf).deletedFiles = [] ∨
      (processDay env files gtfs s3 dau drf).deletedFiles = files.map Prod.fst) ∧
    ((processDay env files gtfs s3 dau drf).deletedFiles ≠ [] →
      (processDay env files gtfs s3 dau drf).aggregatedSaved = true ∧ drf = true ∧
      env.writeAggOk = true ∧ (s3 = true → env.uploadAggOk = true)) := by
  unfold processDay
  dsimp only
  cases hagg : (aggregate_day files gtfs).1 with
  | none => exact ⟨Or.inl rfl, fun h => absurd rfl h⟩
  | some x =>
    dsimp only
    by_cases hsa : save_aggregated env s3 dau = true
    · simp only [hsa, if_true]
      by_cases hc : drf = true ∧ (aggregate_day files gtfs).2.1 ≠ []
      · rw [if_pos hc]
        refine ⟨Or.inr (aggregate_day_some_files files gtfs x hagg), ?_⟩
        intro _
        exact ⟨by trivial, hc.1, save_aggregated_true_elim env s3 dau hsa⟩
      · rw [if_neg hc]
        exact ⟨Or.inl rfl, fun h => absurd rfl h⟩
    · simp only [hsa]
      simp

/-- Witness for the amended C9: with deletion requested and everything
succeeding, the whole discovered file list (valid and skipped files alike) is
deleted. -/
theorem raw_deletion_policy_witness :
    ((processDay envAllOk c9Files none false false true).deletedFiles = [] ∨
      (processDay envAllOk c9Files none false false true).deletedFiles =
        c9Files.map Prod.fst) ∧
    ((processDay envAllOk c9Files none false false true).aggregatedSaved = true ∧
      true = true ∧ envAllOk.writeAggOk = true ∧
      (false = true → envAllOk.uploadAggOk = true)) :=
  ⟨(raw_deletion_policy envAllOk c9Files none false false true).1,
   (raw_deletion_policy envAllOk c9Files none false false true).2 (by decide)⟩

end GtfsMf
